import Mathlib

/-!
Verification of the clinical-measurement ETL core (identity assignment,
dimension upsert, bulk load, incremental aggregation merge) as implemented
in `etl-service/src/etl_logic.py` and `etl-service/src/helper.py`.

The embedding models:
* `make_deterministic_id`: MD5 (RFC 1321) of the pipe-joined five key
  fields, formatted as a UUID string, exactly as
  `uuid.UUID(hashlib.md5(key.encode()).hexdigest())` does;
* `make_row_id` (`helper.py`): a fallible `Except`, because the source
  calls `make_deterministic_id`, a name `helper.py` neither defines nor
  imports, so every call raises `NameError`;
* `load_data`: dimension upserts (`ON CONFLICT DO NOTHING`), enrollment
  merge (`LEAST`), the `COPY` bulk insert (plain append, no conflict
  clause), and the call to `upsert_measurement_aggs` on all batch ids;
* `upsert_measurement_aggs`: the per-bucket partial aggregation SQL
  (COUNT/AVG/MIN/MAX/low-quality count over the selected rows) and the
  `ON CONFLICT DO UPDATE` merge formulas, with SQL NULL modelled as
  `Option` and numeric values as `ℚ` (exact arithmetic).
-/

set_option maxRecDepth 4000000

unseal Rat.add Rat.mul Rat.inv Rat.sub

namespace Etl

/-! ## MD5 (RFC 1321) over byte lists, bytes as `Nat` below 256 -/

/-- Reduce to a 32-bit word. -/
def m32 (x : Nat) : Nat := x % 4294967296

/-- Bitwise complement within 32 bits. -/
def bnot32 (x : Nat) : Nat := 4294967295 - m32 x

/-- Left rotation of a 32-bit word by `s` bits. -/
def rotl32 (x s : Nat) : Nat :=
  (x * 2 ^ s) % 4294967296 + x % 4294967296 / 2 ^ (32 - s)

/-- MD5 sine-derived constant table. -/
def md5K : List Nat :=
  [0xd76aa478, 0xe8c7b756, 0x242070db, 0xc1bdceee,
   0xf57c0faf, 0x4787c62a, 0xa8304613, 0xfd469501,
   0x698098d8, 0x8b44f7af, 0xffff5bb1, 0x895cd7be,
   0x6b901122, 0xfd987193, 0xa679438e, 0x49b40821,
   0xf61e2562, 0xc040b340, 0x265e5a51, 0xe9b6c7aa,
   0xd62f105d, 0x02441453, 0xd8a1e681, 0xe7d3fbc8,
   0x21e1cde6, 0xc33707d6, 0xf4d50d87, 0x455a14ed,
   0xa9e3e905, 0xfcefa3f8, 0x676f02d9, 0x8d2a4c8a,
   0xfffa3942, 0x8771f681, 0x6d9d6122, 0xfde5380c,
   0xa4beea44, 0x4bdecfa9, 0xf6bb4b60, 0xbebfbc70,
   0x289b7ec6, 0xeaa127fa, 0xd4ef3085, 0x04881d05,
   0xd9d4d039, 0xe6db99e5, 0x1fa27cf8, 0xc4ac5665,
   0xf4292244, 0x432aff97, 0xab9423a7, 0xfc93a039,
   0x655b59c3, 0x8f0ccc92, 0xffeff47d, 0x85845dd1,
   0x6fa87e4f, 0xfe2ce6e0, 0xa3014314, 0x4e0811a1,
   0xf7537e82, 0xbd3af235, 0x2ad7d2bb, 0xeb86d391]

/-- MD5 per-round rotation amounts. -/
def md5S : List Nat :=
  [7, 12, 17, 22, 7, 12, 17, 22, 7, 12, 17, 22, 7, 12, 17, 22,
   5, 9, 14, 20, 5, 9, 14, 20, 5, 9, 14, 20, 5, 9, 14, 20,
   4, 11, 16, 23, 4, 11, 16, 23, 4, 11, 16, 23, 4, 11, 16, 23,
   6, 10, 15, 21, 6, 10, 15, 21, 6, 10, 15, 21, 6, 10, 15, 21]

/-- One MD5 round: mixes word `i` of the schedule into the running state. -/
def md5Step (M : List Nat) (st : Nat × Nat × Nat × Nat) (i : Nat) :
    Nat × Nat × Nat × Nat :=
  let a := st.1
  let b := st.2.1
  let c := st.2.2.1
  let d := st.2.2.2
  let f :=
    if i < 16 then (b &&& c) ||| (bnot32 b &&& d)
    else if i < 32 then (d &&& b) ||| (bnot32 d &&& c)
    else if i < 48 then b ^^^ c ^^^ d
    else c ^^^ (b ||| bnot32 d)
  let g :=
    if i < 16 then i
    else if i < 32 then (5 * i + 1) % 16
    else if i < 48 then (3 * i + 5) % 16
    else (7 * i) % 16
  let sum := m32 (f + a + md5K.getD i 0 + M.getD g 0)
  (d, m32 (b + rotl32 sum (md5S.getD i 0)), b, c)

/-- Little-endian 32-bit words of a 64-byte chunk. -/
def md5Words (chunk : List Nat) : List Nat :=
  (List.range 16).map fun j =>
    chunk.getD (4 * j) 0 + 256 * chunk.getD (4 * j + 1) 0 +
      65536 * chunk.getD (4 * j + 2) 0 + 16777216 * chunk.getD (4 * j + 3) 0

/-- Process one 64-byte chunk, adding the mixed state back in. -/
def md5Chunk (st : Nat × Nat × Nat × Nat) (chunk : List Nat) :
    Nat × Nat × Nat × Nat :=
  let M := md5Words chunk
  let r := (List.range 64).foldl (md5Step M) st
  (m32 (st.1 + r.1), m32 (st.2.1 + r.2.1),
   m32 (st.2.2.1 + r.2.2.1), m32 (st.2.2.2 + r.2.2.2))

/-- RFC 1321 padding: `0x80`, zeros to 56 mod 64, then the 64-bit
bit-length little-endian. -/
def md5Pad (msg : List Nat) : List Nat :=
  let l := msg.length
  let zeros := (64 + 56 - (l + 1) % 64) % 64
  msg ++ 0x80 :: List.replicate zeros 0 ++
    (List.range 8).map fun i => 8 * l / 2 ^ (8 * i) % 256

/-- Little-endian bytes of a 32-bit word. -/
def wordBytes (w : Nat) : List Nat :=
  [w % 256, w / 256 % 256, w / 65536 % 256, w / 16777216 % 256]

/-- MD5 digest: sixteen bytes. -/
def md5Bytes (msg : List Nat) : List Nat :=
  let p := md5Pad msg
  let st := (List.range (p.length / 64)).foldl
    (fun st i => md5Chunk st ((p.drop (64 * i)).take 64))
    (0x67452301, 0xefcdab89, 0x98badcfe, 0x10325476)
  wordBytes st.1 ++ wordBytes st.2.1 ++ wordBytes st.2.2.1 ++ wordBytes st.2.2.2

/-- Lower-case hex digit for a value below 16. -/
def hexDigit (n : Nat) : Char :=
  Char.ofNat (if n < 10 then 48 + n else 87 + n)

/-- Two lower-case hex digits of a byte. -/
def byteHex (b : Nat) : List Char :=
  [hexDigit (b / 16 % 16), hexDigit (b % 16)]

/-- Hex rendering of a byte list. -/
def bytesHex (bs : List Nat) : List Char :=
  (bs.map byteHex).flatten

/-- UTF-8 bytes of a character (Python's `str.encode("utf-8")`). -/
def utf8Bytes (c : Char) : List Nat :=
  let n := c.toNat
  if n < 0x80 then [n]
  else if n < 0x800 then [0xc0 + n / 64, 0x80 + n % 64]
  else if n < 0x10000 then
    [0xe0 + n / 4096, 0x80 + n / 64 % 64, 0x80 + n % 64]
  else [0xf0 + n / 262144, 0x80 + n / 4096 % 64, 0x80 + n / 64 % 64,
    0x80 + n % 64]

/-- UTF-8 bytes of a string. -/
def strBytes (s : String) : List Nat :=
  (s.data.map utf8Bytes).flatten

/-- Hex digest of a string, as `hashlib.md5(key.encode()).hexdigest()`. -/
def md5hex (s : String) : String :=
  ⟨bytesHex (md5Bytes (strBytes s))⟩

/-- Insert the UUID dashes into a 32-hex-digit character list (8-4-4-4-12),
as `str(uuid.UUID(hex))` renders it. -/
def uuidDashes (h : List Char) : List Char :=
  h.take 8 ++ '-' :: ((h.drop 8).take 4 ++ '-' ::
    ((h.drop 12).take 4 ++ '-' :: ((h.drop 16).take 4 ++ '-' :: h.drop 20)))

/-- String of the MD5-derived UUID of a string:
`str(uuid.UUID(hashlib.md5(s.encode("utf-8")).hexdigest()))`. -/
def md5uuid (s : String) : String :=
  ⟨uuidDashes (bytesHex (md5Bytes (strBytes s)))⟩

/-- RFC 1321 test vector for the MD5 embedding. -/
theorem md5hex_abc : md5hex "abc" = "900150983cd24fb0d6963f7d28e17f72" := by
  decide

/-! ## Identity assignment (`make_deterministic_id`, `make_row_id`) -/

/-- Canonical rendering of a UTC instant (a rational number of seconds
since the epoch) as produced upstream; stands for Python's `str()` of the
normalized timestamp. -/
def ratStr (q : ℚ) : String :=
  toString q.num ++ "/" ++ toString q.den

/-- Pipe-join of the five business-key fields:
`"|".join(str(row[col]) for col in (study_id, participant_id, timestamp,
measurement_type, value))`. -/
def joinKey (s p t m v : String) : String :=
  s ++ "|" ++ p ++ "|" ++ t ++ "|" ++ m ++ "|" ++ v

/-- One cleaned, validated measurement row as handed to `load_data`.
`value` is the raw textual value column (the transform never coerces it);
`value_num`, `bp_systolic`, `bp_diastolic` are the numeric columns the
aggregation SQL reads (schema-side derivations of `value`, nullable for
the blood-pressure components). -/
structure Row where
  study_id : String
  participant_id : String
  measurement_type : String
  value : String
  unit : String
  timestamp : ℚ
  site_id : String
  quality_score : ℚ
  value_num : ℚ
  bp_systolic : Option ℚ
  bp_diastolic : Option ℚ
deriving DecidableEq, Repr

/-- Key string hashed by `make_deterministic_id` for a row. -/
def rowKey (r : Row) : String :=
  joinKey r.study_id r.participant_id (ratStr r.timestamp)
    r.measurement_type r.value

/-- The identity assigner: MD5 of the pipe-joined key, as a UUID string. -/
def make_deterministic_id (r : Row) : String :=
  md5uuid (rowKey r)

/-- The helper variant (`helper.make_row_id`): builds the five-field row
dict and then calls `make_deterministic_id` — a name `helper.py` neither
defines nor imports, so in the source every call raises `NameError`
before any identifier is produced. -/
def make_row_id (s p t m v : String) : Except String String :=
  Except.error "NameError: name make_deterministic_id is not defined"

/-! ## Fact store and aggregation -/

/-- A persisted `clinical_measurements` row: the assigned id plus the row. -/
structure IdRow where
  id : String
  row : Row
deriving DecidableEq, Repr

/-- Attach the deterministic id, as the `df.insert(0, 'id', ...)` step. -/
def withId (r : Row) : IdRow :=
  ⟨make_deterministic_id r, r⟩

/-- Day truncation of a timestamp (`DATE_TRUNC('day', timestamp)::date`). -/
def tsDay (t : ℚ) : ℤ :=
  ⌊t / 86400⌋

/-- Aggregation bucket key:
`(agg_day, study_id, site_id, participant_id, measurement_type)`. -/
structure BKey where
  agg_day : ℤ
  study_id : String
  site_id : String
  participant_id : String
  measurement_type : String
deriving DecidableEq, Repr

/-- Bucket key of a persisted row. -/
def bkey (r : IdRow) : BKey :=
  ⟨tsDay r.row.timestamp, r.row.study_id, r.row.site_id,
    r.row.participant_id, r.row.measurement_type⟩

/-- One bucket of `measurement_aggregations` (also the shape of a partial
group produced by the aggregation query). -/
structure Agg where
  measurement_count : ℕ
  avg_value : ℚ
  min_value : ℚ
  max_value : ℚ
  avg_systolic : Option ℚ
  avg_diastolic : Option ℚ
  avg_quality_score : ℚ
  low_quality_count : ℕ
deriving DecidableEq, Repr

/-- Minimum of a list of rationals, `none` on the empty list. -/
def oMin (l : List ℚ) : Option ℚ :=
  l.foldr (fun a b => match b with | none => some a | some m => some (min a m)) none

/-- Maximum of a list of rationals, `none` on the empty list. -/
def oMax (l : List ℚ) : Option ℚ :=
  l.foldr (fun a b => match b with | none => some a | some m => some (max a m)) none

/-- SQL `AVG` over a nullable column: the non-null values, `none` when
there are none. -/
def avgOpt (l : List ℚ) : Option ℚ :=
  match l with
  | [] => none
  | _ => some (l.sum / l.length)

/-- The `value_num` column of a group. -/
def valsOf (g : List IdRow) : List ℚ :=
  g.map fun r => r.row.value_num

/-- Partial statistics of one (non-empty) group of rows, mirroring the
`agg` CTE: `COUNT(*)`, `AVG/MIN/MAX(value_num)`, `AVG(bp_systolic)`,
`AVG(bp_diastolic)`, `AVG(quality_score)`,
`SUM((quality_score < 0.95)::INT)`. -/
def aggOfGroup (g : List IdRow) : Agg where
  measurement_count := g.length
  avg_value := (valsOf g).sum / g.length
  min_value := (oMin (valsOf g)).getD 0
  max_value := (oMax (valsOf g)).getD 0
  avg_systolic := avgOpt (g.filterMap fun r => r.row.bp_systolic)
  avg_diastolic := avgOpt (g.filterMap fun r => r.row.bp_diastolic)
  avg_quality_score := (g.map fun r => r.row.quality_score).sum / g.length
  low_quality_count := (g.filter fun r => r.row.quality_score < 95 / 100).length

/-- Rows of `rows` falling in bucket `k` (the `GROUP BY` restricted to one
key). -/
def groupRows (rows : List IdRow) (k : BKey) : List IdRow :=
  rows.filter fun r => bkey r = k

/-- Partial per-bucket statistics of a row set: `some` exactly on the
buckets the rows touch. -/
def batchAgg (rows : List IdRow) (k : BKey) : Option Agg :=
  match groupRows rows k with
  | [] => none
  | g => some (aggOfGroup g)

/-- SQL multiplication of a nullable value by a count. -/
def optMul (a : Option ℚ) (n : ℚ) : Option ℚ :=
  a.map (· * n)

/-- SQL addition: null when either side is null. -/
def optAdd (a b : Option ℚ) : Option ℚ :=
  match a, b with
  | some x, some y => some (x + y)
  | _, _ => none

/-- SQL division by a nullable divisor. -/
def optDiv (a b : Option ℚ) : Option ℚ :=
  match a, b with
  | some x, some y => some (x / y)
  | _, _ => none

/-- SQL `NULLIF(x, 0)`. -/
def nullifZero (x : ℚ) : Option ℚ :=
  if x = 0 then none else some x

/-- SQL `COALESCE` of two nullable values. -/
def coalesce (a b : Option ℚ) : Option ℚ :=
  match a with
  | some x => some x
  | none => b

/-- The `ON CONFLICT ... DO UPDATE` merge of an existing bucket with an
incoming partial group, field by field as in the SQL. -/
def mergeAgg (old p : Agg) : Agg where
  measurement_count := old.measurement_count + p.measurement_count
  min_value := min old.min_value p.min_value
  max_value := max old.max_value p.max_value
  low_quality_count := old.low_quality_count + p.low_quality_count
  avg_value :=
    (old.avg_value * old.measurement_count + p.avg_value * p.measurement_count) /
      ((old.measurement_count : ℚ) + p.measurement_count)
  avg_systolic :=
    coalesce
      (optDiv
        (optAdd (optMul old.avg_systolic old.measurement_count)
          (optMul p.avg_systolic p.measurement_count))
        (nullifZero ((old.measurement_count : ℚ) + p.measurement_count)))
      old.avg_systolic
  avg_diastolic :=
    coalesce
      (optDiv
        (optAdd (optMul old.avg_diastolic old.measurement_count)
          (optMul p.avg_diastolic p.measurement_count))
        (nullifZero ((old.measurement_count : ℚ) + p.measurement_count)))
      old.avg_diastolic
  avg_quality_score :=
    (old.avg_quality_score * old.measurement_count +
        p.avg_quality_score * p.measurement_count) /
      ((old.measurement_count : ℚ) + p.measurement_count)

/-- The persistent `measurement_aggregations` table, as a map from bucket
key to bucket. -/
def Store : Type :=
  BKey → Option Agg

/-- The empty rollup store. -/
def emptyStore : Store :=
  fun _ => none

/-- One bucket slot of the `ON CONFLICT` upsert: keep the existing bucket
when the batch contributes nothing, insert the partial verbatim where no
bucket exists, merge otherwise. -/
def mergePoint (o p : Option Agg) : Option Agg :=
  match o, p with
  | b, none => b
  | none, some q => some q
  | some b, some q => some (mergeAgg b q)

/-- Merge the partial statistics of a row set into the store: insert the
partial verbatim where no bucket exists, apply `mergeAgg` where one does. -/
def mergeRows (rows : List IdRow) (s : Store) : Store :=
  fun k => mergePoint (s k) (batchAgg rows k)

/-- The `upsert_measurement_aggs` entry point: no-op on an empty id list,
otherwise aggregate the persisted rows whose id is in the list and merge
them. -/
def upsert_measurement_aggs (inserted_ids : List String)
    (table : List IdRow) (s : Store) : Store :=
  if inserted_ids.isEmpty then s
  else mergeRows (table.filter fun r => inserted_ids.contains r.id) s

/-! ## Dimensions, enrollments, and `load_data` -/

/-- `INSERT ... ON CONFLICT DO NOTHING` into an existence-only registry. -/
def insertDim (l : List String) (x : String) : List String :=
  if l.contains x then l else l ++ [x]

/-- Register each key of a batch, skipping ones already present. -/
def upsertDims (l : List String) (xs : List String) : List String :=
  xs.foldl insertDim l

/-- The `participant_enrollments` table. -/
def Enrollments : Type :=
  String × String → Option ℚ

/-- Minimum timestamp of the batch rows for one `(participant, study)`
pair (`grp['timestamp'].min()`). -/
def groupMinTs (df : List Row) (p s : String) : Option ℚ :=
  oMin ((df.filter fun r => r.participant_id = p ∧ r.study_id = s).map
    fun r => r.timestamp)

/-- Enrollment upsert: insert the batch minimum, or
`LEAST(existing, excluded)` on conflict. -/
def registerEnrollments (df : List Row) (e : Enrollments) : Enrollments :=
  fun ps =>
    match groupMinTs df ps.1 ps.2, e ps with
    | none, v => v
    | some m, none => some m
    | some m, some v => some (min v m)

/-- The relational state touched by `load_data`. -/
structure DB where
  studies : List String
  participants : List String
  sites : List String
  enrollments : Enrollments
  measurements : List IdRow
  aggs : Store

/-- The empty database. -/
def emptyDB : DB where
  studies := []
  participants := []
  sites := []
  enrollments := fun _ => none
  measurements := []
  aggs := emptyStore

/-- The `load_data` pipeline step: assign ids, upsert dimensions and
enrollments, `COPY` the batch into `clinical_measurements` (a plain
append — the `COPY` has no conflict clause), and merge aggregations for
every id of the batch. -/
def load_data (df : List Row) (db : DB) : DB :=
  let rows := df.map withId
  let table := db.measurements ++ rows
  let inserted_ids := rows.map IdRow.id
  { studies := upsertDims db.studies (df.map Row.study_id)
    participants := upsertDims db.participants (df.map Row.participant_id)
    sites := upsertDims db.sites (df.map Row.site_id)
    enrollments := registerEnrollments df db.enrollments
    measurements := table
    aggs := upsert_measurement_aggs inserted_ids table db.aggs }

/-! ## Merge algebra -/

/-- Combine two optional minima. -/
def oMin2 (a b : Option ℚ) : Option ℚ :=
  match a, b with
  | none, y => y
  | x, none => x
  | some x, some y => some (min x y)

/-- Combine two optional maxima. -/
def oMax2 (a b : Option ℚ) : Option ℚ :=
  match a, b with
  | none, y => y
  | x, none => x
  | some x, some y => some (max x y)

/-- Equality of two optional buckets on the five claim-relevant fields
(`measurement_count`, `avg_value`, `min_value`, `max_value`,
`low_quality_count`). -/
def coreEq : Option Agg → Option Agg → Prop
  | none, none => True
  | some a, some b =>
      a.measurement_count = b.measurement_count ∧ a.avg_value = b.avg_value ∧
        a.min_value = b.min_value ∧ a.max_value = b.max_value ∧
        a.low_quality_count = b.low_quality_count
  | _, _ => False

/-- Merge a sequence of batches into a store, one merge per batch. -/
def mergeSeq (batches : List (List IdRow)) (s : Store) : Store :=
  batches.foldl (fun t rows => mergeRows rows t) s

/-- The store faithfully summarizes a history of merged rows: each bucket
holds the exact row count and an average whose product with the count is
the exact sum of the merged values. -/
def Represents (s : Store) (hist : List IdRow) : Prop :=
  ∀ k, match s k with
    | none => groupRows hist k = []
    | some b =>
        groupRows hist k ≠ [] ∧
          b.measurement_count = (groupRows hist k).length ∧
          b.avg_value * ((groupRows hist k).length : ℚ) =
            (valsOf (groupRows hist k)).sum

/-! ## Concrete inputs -/

/-- Spec scenario row `{S1, P1, glucose, 100, 2024-01-01T10:00Z, 0.9}`
(the timestamp is `1704103200` seconds since the epoch). -/
def specRow1 : Row :=
  ⟨"S1", "P1", "glucose", "100", "mg/dL", 1704103200, "A", 9 / 10, 100,
    none, none⟩

/-- Spec scenario row `{S1, P1, glucose, 120, 2024-01-01T14:00Z, 0.99}`. -/
def specRow2 : Row :=
  ⟨"S1", "P1", "glucose", "120", "mg/dL", 1704117600, "A", 99 / 100, 120,
    none, none⟩

/-- The bucket (day 2024-01-01 = day number 19723, S1, site A, P1,
glucose) the two scenario rows fall into. -/
def specKey : BKey :=
  ⟨19723, "S1", "A", "P1", "glucose"⟩

/-- Row whose study id contains the key delimiter. -/
def barRow1 : Row :=
  ⟨"a|b", "c", "glucose", "1", "u", 0, "A", 1, 1, none, none⟩

/-- Row with different study and participant ids that pipe-join to the
same key string as `barRow1`. -/
def barRow2 : Row :=
  ⟨"a", "b|c", "glucose", "1", "u", 0, "A", 1, 1, none, none⟩

/-- A persisted row with a concrete identifier, for witnesses. -/
def wRow : IdRow :=
  ⟨"id-w", specRow1⟩

/-- An enrollment table holding `enrolled_at = 5` for `(P1, S1)`. -/
def wEnr : Enrollments :=
  fun ps => if ps = ("P1", "S1") then some 5 else none

/-! ## Identifier length -/

/-- A byte renders as two hex digits. -/
theorem byteHex_length (b : Nat) : (byteHex b).length = 2 := rfl

/-- Hex rendering doubles the byte count. -/
theorem bytesHex_length (bs : List Nat) : (bytesHex bs).length = 2 * bs.length := by
  induction bs with
  | nil => rfl
  | cons a l ih =>
    simp only [bytesHex, List.map_cons, List.flatten_cons, List.length_append,
      List.length_cons] at ih ⊢
    simp only [byteHex, List.length_cons, List.length_nil]
    omega

/-- The MD5 digest always has sixteen bytes. -/
theorem md5Bytes_length (m : List Nat) : (md5Bytes m).length = 16 := by
  simp [md5Bytes, wordBytes]

/-- Dashing a 32-character hex digest yields 36 characters. -/
theorem uuidDashes_length (h : List Char) (hl : h.length = 32) :
    (uuidDashes h).length = 36 := by
  simp only [uuidDashes, List.length_append, List.length_cons, List.length_take,
    List.length_drop, hl]
  omega

/-- Every MD5-derived UUID string has length 36. -/
theorem md5uuid_length (s : String) : (md5uuid s).length = 36 := by
  show (uuidDashes (bytesHex (md5Bytes (strBytes s)))).length = 36
  rw [uuidDashes_length]
  rw [bytesHex_length, md5Bytes_length]

/-! ## Claim theorems (identity assigner) -/

/-- C9: the assigned identifier depends only on the five key fields:
changing `unit`, `site_id`, `quality_score`, or the derived numeric
columns leaves the identifier unchanged. -/
theorem id_ignores_non_key_fields (r : Row) (u si : String) (q vn : ℚ)
    (bs bd : Option ℚ) :
    make_deterministic_id
      { r with
        unit := u
        site_id := si
        quality_score := q
        value_num := vn
        bp_systolic := bs
        bp_diastolic := bd } = make_deterministic_id r :=
  rfl

/-- C6: the single-machine identity assigner is a pure function of the
five canonical key fields — two rows agreeing on them get the same
identifier, always of fixed length 36 — but the helper `make_row_id`
used by the distributed execution path does not return that identifier:
`helper.py` neither defines nor imports `make_deterministic_id`, so every
call to `make_row_id` raises `NameError` instead. -/
theorem id_deterministic (r1 r2 : Row) (hs : r1.study_id = r2.study_id)
    (hp : r1.participant_id = r2.participant_id)
    (ht : r1.timestamp = r2.timestamp)
    (hm : r1.measurement_type = r2.measurement_type)
    (hv : r1.value = r2.value) :
    make_deterministic_id r1 = make_deterministic_id r2 ∧
      (make_deterministic_id r1).length = 36 ∧
      make_row_id r1.study_id r1.participant_id (ratStr r1.timestamp)
        r1.measurement_type r1.value =
        Except.error "NameError: name make_deterministic_id is not defined" := by
  refine ⟨?_, md5uuid_length _, rfl⟩
  unfold make_deterministic_id rowKey
  rw [hs, hp, ht, hm, hv]

/-- C6 witness at the concrete scenario row. -/
theorem id_deterministic_witness :
    make_deterministic_id specRow1 = make_deterministic_id specRow1 ∧
      (make_deterministic_id specRow1).length = 36 ∧
      make_row_id specRow1.study_id specRow1.participant_id
        (ratStr specRow1.timestamp) specRow1.measurement_type specRow1.value =
        Except.error "NameError: name make_deterministic_id is not defined" :=
  id_deterministic specRow1 specRow1 rfl rfl rfl rfl rfl

/-! ## Claim theorems (bulk load and replay) -/

/-- C2: the `COPY` bulk insert has no conflict handling: re-loading a row
whose identifier is already persisted appends a second fact row with the
same identifier instead of silently skipping it. -/
theorem copy_duplicates_existing_id :
    ((load_data [specRow1] emptyDB).measurements.map IdRow.id =
        [make_deterministic_id specRow1]) ∧
      (load_data [specRow1] (load_data [specRow1] emptyDB)).measurements =
        [withId specRow1, withId specRow1] :=
  ⟨rfl, rfl⟩

/-- C1: replay is not idempotent: loading the spec's two-row batch once
yields `measurement_count = 2`, loading it a second time leaves four fact
rows (duplicates) and inflates `measurement_count` to 6, because the merge
re-reads all rows whose ids are in the (unchanged) id list and adds the
recomputed partial onto the already-merged bucket. -/
theorem replay_double_counts :
    ((load_data [specRow1, specRow2] emptyDB).aggs specKey).map
        Agg.measurement_count = some 2 ∧
      ((load_data [specRow1, specRow2]
            (load_data [specRow1, specRow2] emptyDB)).aggs specKey).map
          Agg.measurement_count = some 6 ∧
      (load_data [specRow1, specRow2]
          (load_data [specRow1, specRow2] emptyDB)).measurements.length = 4 := by
  refine ⟨by decide, by decide, rfl⟩

/-! ## Claim theorems (aggregation merge) -/

/-- C8: merging a bucket whose `avg_systolic`/`avg_diastolic` are NULL
with a partial group that has data produces NULL (the `COALESCE` only
falls back to the existing side), losing the incoming averages. -/
theorem systolic_merge_loses_nonnull :
    (mergeAgg ⟨1, 100, 100, 100, none, none, 1, 0⟩
        ⟨1, 120, 120, 120, some 120, some 80, 1, 0⟩).avg_systolic = none ∧
      (mergeAgg ⟨1, 100, 100, 100, none, none, 1, 0⟩
          ⟨1, 120, 120, 120, some 120, some 80, 1, 0⟩).avg_diastolic = none :=
  ⟨rfl, rfl⟩

/-- Helper: a partial group produced by the aggregation query is a group
of at least one row. -/
theorem batchAgg_pos (rows : List IdRow) (k : BKey) (p : Agg)
    (h : batchAgg rows k = some p) : 1 ≤ p.measurement_count := by
  unfold batchAgg at h
  cases hg : groupRows rows k with
  | nil => rw [hg] at h; exact absurd h (by simp)
  | cons a l =>
    rw [hg] at h
    injection h with h
    subst h
    simp [aggOfGroup]

/-- C10: every partial group has `measurement_count ≥ 1`, so the divisor
`old.measurement_count + partial.measurement_count` in the merge formulas
is strictly positive and the average divisions never divide by zero. -/
theorem partial_group_count_pos (rows : List IdRow) (k : BKey) (p old : Agg)
    (h : batchAgg rows k = some p) :
    1 ≤ p.measurement_count ∧
      (0 : ℚ) < (old.measurement_count : ℚ) + (p.measurement_count : ℚ) := by
  have h1 := batchAgg_pos rows k p h
  refine ⟨h1, ?_⟩
  have h2 : (1 : ℚ) ≤ (p.measurement_count : ℚ) := by exact_mod_cast h1
  have h0 : (0 : ℚ) ≤ (old.measurement_count : ℚ) := Nat.cast_nonneg _
  linarith

/-- C10 witness at a concrete one-row group. -/
theorem partial_group_count_pos_witness :
    1 ≤ (aggOfGroup [wRow]).measurement_count ∧
      (0 : ℚ) < ((aggOfGroup [wRow]).measurement_count : ℚ) +
        ((aggOfGroup [wRow]).measurement_count : ℚ) :=
  partial_group_count_pos [wRow] (bkey wRow) (aggOfGroup [wRow])
    (aggOfGroup [wRow]) (by decide)

/-! ## Claim theorems (enrollment) -/

/-- C7: an enrollment merge stores exactly the minimum of the existing
`enrolled_at` and the batch minimum for the pair, hence the stored value
never increases, and a batch whose minimum timestamp for the pair is not
earlier than the stored value leaves it unchanged. -/
theorem enrolled_at_monotone (df : List Row) (e : Enrollments)
    (k : String × String) (v w : ℚ) (hv : e k = some v)
    (hw : registerEnrollments df e k = some w) :
    w = min v ((groupMinTs df k.1 k.2).getD v) ∧ w ≤ v ∧
      (v ≤ (groupMinTs df k.1 k.2).getD v → w = v) := by
  unfold registerEnrollments at hw
  cases hm : groupMinTs df k.1 k.2 with
  | none =>
    rw [hm, hv] at hw
    injection hw with hw
    subst hw
    simp
  | some m =>
    rw [hm, hv] at hw
    injection hw with hw
    subst hw
    exact ⟨rfl, min_le_left v m, fun hvm => min_eq_left hvm⟩

/-- C7 witness: merging a batch whose only row for `(P1, S1)` is much
later leaves the stored value at 5. -/
theorem enrolled_at_monotone_witness :
    (5 : ℚ) = min 5 ((groupMinTs [specRow1] "P1" "S1").getD 5) ∧ (5 : ℚ) ≤ 5 ∧
      ((5 : ℚ) ≤ (groupMinTs [specRow1] "P1" "S1").getD 5 → (5 : ℚ) = 5) :=
  enrolled_at_monotone [specRow1] wEnr ("P1", "S1") 5 5 (by decide) (by decide)

/-! ## Claim theorems (collision resistance) -/

/-- C5 counterexample: two rows that differ in `study_id` (and in
`participant_id`) but pipe-join to the same key string receive the same
identifier. -/
theorem delimiter_collision :
    make_deterministic_id barRow1 = make_deterministic_id barRow2 ∧
      barRow1.study_id ≠ barRow2.study_id ∧
      barRow1.participant_id ≠ barRow2.participant_id :=
  ⟨congrArg md5uuid rfl, by decide, by decide⟩

/-- Splitting at the first delimiter is unambiguous when neither prefix
contains the delimiter. -/
theorem bar_split {a b : List Char} (c d : List Char) (ha : '|' ∉ a)
    (hc : '|' ∉ c) (h : a ++ '|' :: b = c ++ '|' :: d) : a = c ∧ b = d := by
  induction a generalizing c with
  | nil =>
    cases c with
    | nil => simpa using h
    | cons y ys =>
      simp only [List.nil_append, List.cons_append, List.cons.injEq] at h
      have hy : '|' ∈ y :: ys := by rw [h.1]; exact List.mem_cons_self y ys
      exact absurd hy hc
  | cons x xs ih =>
    cases c with
    | nil =>
      simp only [List.cons_append, List.nil_append, List.cons.injEq] at h
      have hx : '|' ∈ x :: xs := by rw [← h.1]; exact List.mem_cons_self x xs
      exact absurd hx ha
    | cons y ys =>
      simp only [List.cons_append, List.cons.injEq] at h
      have ha2 : '|' ∉ xs := fun hm => ha (List.mem_cons_of_mem x hm)
      have hc2 : '|' ∉ ys := fun hm => hc (List.mem_cons_of_mem y hm)
      obtain ⟨hxy, hrest⟩ := h
      obtain ⟨hac, hbd⟩ := ih ys ha2 hc2 hrest
      exact ⟨by rw [hxy, hac], hbd⟩

/-- The characters of the pipe-joined key, right-associated. -/
theorem joinKey_data (s p t m v : String) :
    (joinKey s p t m v).data =
      s.data ++ '|' :: (p.data ++ '|' :: (t.data ++ '|' ::
        (m.data ++ '|' :: v.data))) := by
  have hbar : ("|" : String).data = ['|'] := rfl
  simp [joinKey, String.data_append, hbar, List.append_assoc]

/-- C5 amended: rows whose five canonical key strings are free of the
`|` delimiter and differ in at least one component are hashed from
different key strings (so their identifiers agree only on an MD5
collision of distinct inputs). -/
theorem distinct_keys_delimiter_free (r1 r2 : Row)
    (h1 : '|' ∉ r1.study_id.data) (h2 : '|' ∉ r1.participant_id.data)
    (h3 : '|' ∉ (ratStr r1.timestamp).data)
    (h4 : '|' ∉ r1.measurement_type.data) (h5 : '|' ∉ r1.value.data)
    (g1 : '|' ∉ r2.study_id.data) (g2 : '|' ∉ r2.participant_id.data)
    (g3 : '|' ∉ (ratStr r2.timestamp).data)
    (g4 : '|' ∉ r2.measurement_type.data) (g5 : '|' ∉ r2.value.data)
    (hne : (r1.study_id, r1.participant_id, ratStr r1.timestamp,
        r1.measurement_type, r1.value) ≠
      (r2.study_id, r2.participant_id, ratStr r2.timestamp,
        r2.measurement_type, r2.value)) :
    rowKey r1 ≠ rowKey r2 := by
  intro hk
  apply hne
  have hd := congrArg String.data hk
  rw [rowKey, rowKey, joinKey_data, joinKey_data] at hd
  obtain ⟨e1, hd⟩ := bar_split _ _ h1 g1 hd
  obtain ⟨e2, hd⟩ := bar_split _ _ h2 g2 hd
  obtain ⟨e3, hd⟩ := bar_split _ _ h3 g3 hd
  obtain ⟨e4, e5⟩ := bar_split _ _ h4 g4 hd
  have q1 : r1.study_id = r2.study_id := String.ext e1
  have q2 : r1.participant_id = r2.participant_id := String.ext e2
  have q3 : ratStr r1.timestamp = ratStr r2.timestamp := String.ext e3
  have q4 : r1.measurement_type = r2.measurement_type := String.ext e4
  have q5 : r1.value = r2.value := String.ext e5
  rw [q1, q2, q3, q4, q5]

/-- C5 amended witness: the two scenario rows have delimiter-free key
fields and differ, so their key strings differ. -/
theorem distinct_keys_delimiter_free_witness :
    rowKey specRow1 ≠ rowKey specRow2 :=
  distinct_keys_delimiter_free specRow1 specRow2 (by decide) (by decide)
    (by decide) (by decide) (by decide) (by decide) (by decide) (by decide)
    (by decide) (by decide) (by decide)

/-! ## Merge algebra lemmas -/

/-- Unfolding `oMin` over a cons cell. -/
theorem oMin_cons (a : ℚ) (t : List ℚ) :
    oMin (a :: t) = oMin2 (some a) (oMin t) := by
  cases h : oMin t with
  | none => unfold oMin at h ⊢; rw [List.foldr_cons, h]; rfl
  | some m => unfold oMin at h ⊢; rw [List.foldr_cons, h]; rfl

/-- Unfolding `oMax` over a cons cell. -/
theorem oMax_cons (a : ℚ) (t : List ℚ) :
    oMax (a :: t) = oMax2 (some a) (oMax t) := by
  cases h : oMax t with
  | none => unfold oMax at h ⊢; rw [List.foldr_cons, h]; rfl
  | some m => unfold oMax at h ⊢; rw [List.foldr_cons, h]; rfl

/-- Combining optional minima is associative. -/
theorem oMin2_assoc (x y z : Option ℚ) :
    oMin2 x (oMin2 y z) = oMin2 (oMin2 x y) z := by
  cases x <;> cases y <;> cases z <;> simp [oMin2, min_assoc]

/-- Combining optional maxima is associative. -/
theorem oMax2_assoc (x y z : Option ℚ) :
    oMax2 x (oMax2 y z) = oMax2 (oMax2 x y) z := by
  cases x <;> cases y <;> cases z <;> simp [oMax2, max_assoc]

/-- The minimum of an appended list combines the two minima. -/
theorem oMin_append (l1 l2 : List ℚ) :
    oMin (l1 ++ l2) = oMin2 (oMin l1) (oMin l2) := by
  induction l1 with
  | nil =>
    rw [List.nil_append]
    cases h : oMin l2 with
    | none => rfl
    | some m => rfl
  | cons a t ih => rw [List.cons_append, oMin_cons, oMin_cons, ih, oMin2_assoc]

/-- The maximum of an appended list combines the two maxima. -/
theorem oMax_append (l1 l2 : List ℚ) :
    oMax (l1 ++ l2) = oMax2 (oMax l1) (oMax l2) := by
  induction l1 with
  | nil =>
    rw [List.nil_append]
    cases h : oMax l2 with
    | none => rfl
    | some m => rfl
  | cons a t ih => rw [List.cons_append, oMax_cons, oMax_cons, ih, oMax2_assoc]

/-- A non-empty list has a minimum. -/
theorem oMin_of_ne_nil (l : List ℚ) (h : l ≠ []) : ∃ m, oMin l = some m := by
  cases l with
  | nil => exact absurd rfl h
  | cons a t =>
    rw [oMin_cons]
    cases oMin t with
    | none => exact ⟨a, rfl⟩
    | some m => exact ⟨min a m, rfl⟩

/-- A non-empty list has a maximum. -/
theorem oMax_of_ne_nil (l : List ℚ) (h : l ≠ []) : ∃ m, oMax l = some m := by
  cases l with
  | nil => exact absurd rfl h
  | cons a t =>
    rw [oMax_cons]
    cases oMax t with
    | none => exact ⟨a, rfl⟩
    | some m => exact ⟨max a m, rfl⟩

/-- Grouping distributes over appending row sets. -/
theorem groupRows_append (rows1 rows2 : List IdRow) (k : BKey) :
    groupRows (rows1 ++ rows2) k = groupRows rows1 k ++ groupRows rows2 k :=
  List.filter_append _ _

/-- A batch contributes nothing to a bucket exactly when no row falls in
it. -/
theorem batchAgg_none_iff (rows : List IdRow) (k : BKey) :
    batchAgg rows k = none ↔ groupRows rows k = [] := by
  unfold batchAgg
  cases groupRows rows k <;> simp

/-- A batch with rows in the bucket contributes their partial group. -/
theorem batchAgg_of_ne (rows : List IdRow) (k : BKey)
    (h : groupRows rows k ≠ []) :
    batchAgg rows k = some (aggOfGroup (groupRows rows k)) := by
  unfold batchAgg
  cases hg : groupRows rows k with
  | nil => exact absurd hg h
  | cons a t => rfl

/-- Merging an absent partial leaves the slot unchanged. -/
theorem mergePoint_none (o : Option Agg) : mergePoint o none = o := by
  cases o <;> rfl

/-- Core-field equality is reflexive. -/
theorem coreEq_refl (o : Option Agg) : coreEq o o := by
  cases o with
  | none => trivial
  | some b => exact ⟨rfl, rfl, rfl, rfl, rfl⟩

/-- Projection of the merged count. -/
theorem mergeAgg_count (b p : Agg) :
    (mergeAgg b p).measurement_count =
      b.measurement_count + p.measurement_count := rfl

/-- Projection of the merged average. -/
theorem mergeAgg_avg (b p : Agg) :
    (mergeAgg b p).avg_value =
      (b.avg_value * b.measurement_count + p.avg_value * p.measurement_count) /
        ((b.measurement_count : ℚ) + p.measurement_count) := rfl

/-- Projection of the merged minimum. -/
theorem mergeAgg_min (b p : Agg) :
    (mergeAgg b p).min_value = min b.min_value p.min_value := rfl

/-- Projection of the merged maximum. -/
theorem mergeAgg_max (b p : Agg) :
    (mergeAgg b p).max_value = max b.max_value p.max_value := rfl

/-- Projection of the merged low-quality count. -/
theorem mergeAgg_low (b p : Agg) :
    (mergeAgg b p).low_quality_count =
      b.low_quality_count + p.low_quality_count := rfl

/-- Projection of a partial group's count. -/
theorem aggOfGroup_count (g : List IdRow) :
    (aggOfGroup g).measurement_count = g.length := rfl

/-- Projection of a partial group's average. -/
theorem aggOfGroup_avg (g : List IdRow) :
    (aggOfGroup g).avg_value = (valsOf g).sum / (g.length : ℚ) := rfl

/-- Projection of a partial group's minimum. -/
theorem aggOfGroup_min (g : List IdRow) :
    (aggOfGroup g).min_value = (oMin (valsOf g)).getD 0 := rfl

/-- Projection of a partial group's maximum. -/
theorem aggOfGroup_max (g : List IdRow) :
    (aggOfGroup g).max_value = (oMax (valsOf g)).getD 0 := rfl

/-- Projection of a partial group's low-quality count. -/
theorem aggOfGroup_low (g : List IdRow) :
    (aggOfGroup g).low_quality_count =
      (g.filter fun r => r.row.quality_score < 95 / 100).length := rfl

/-- The rational length of a non-empty group is positive. -/
theorem length_cast_pos (g : List IdRow) (h : g ≠ []) :
    (0 : ℚ) < (g.length : ℚ) := by
  have hp : 0 < g.length := List.length_pos.mpr h
  exact_mod_cast hp

/-- Values distribute over appended groups. -/
theorem valsOf_append (g1 g2 : List IdRow) :
    valsOf (g1 ++ g2) = valsOf g1 ++ valsOf g2 :=
  List.map_append _ _ _

/-- A non-empty group has values. -/
theorem valsOf_ne_nil (g : List IdRow) (h : g ≠ []) : valsOf g ≠ [] := by
  simpa [valsOf] using h

/-- Merging two partials into an empty slot is commutative on the core
fields. -/
theorem mergeAgg_comm (p q : Agg) :
    coreEq (some (mergeAgg p q)) (some (mergeAgg q p)) := by
  refine ⟨?_, ?_, ?_, ?_, ?_⟩
  · simp [mergeAgg_count, Nat.add_comm]
  · rw [mergeAgg_avg, mergeAgg_avg, add_comm (p.avg_value * _),
      add_comm ((p.measurement_count : ℚ))]
  · rw [mergeAgg_min, mergeAgg_min, min_comm]
  · rw [mergeAgg_max, mergeAgg_max, max_comm]
  · simp [mergeAgg_low, Nat.add_comm]

/-- Merging two partials into an existing bucket is commutative on the
core fields. -/
theorem mergeAgg_comm3 (b p q : Agg) (hp : 1 ≤ p.measurement_count)
    (hq : 1 ≤ q.measurement_count) :
    coreEq (some (mergeAgg (mergeAgg b p) q))
      (some (mergeAgg (mergeAgg b q) p)) := by
  have hb0 : (0 : ℚ) ≤ (b.measurement_count : ℚ) := Nat.cast_nonneg _
  have hp1 : (1 : ℚ) ≤ (p.measurement_count : ℚ) := by exact_mod_cast hp
  have hq1 : (1 : ℚ) ≤ (q.measurement_count : ℚ) := by exact_mod_cast hq
  have hbp : ((b.measurement_count : ℚ) + p.measurement_count) ≠ 0 := by
    linarith
  have hbq : ((b.measurement_count : ℚ) + q.measurement_count) ≠ 0 := by
    linarith
  have hall : ((b.measurement_count : ℚ) + p.measurement_count +
      q.measurement_count) ≠ 0 := by linarith
  refine ⟨?_, ?_, ?_, ?_, ?_⟩
  · simp only [mergeAgg_count]; omega
  · simp only [mergeAgg_avg, mergeAgg_count]
    push_cast
    rw [div_mul_cancel₀ _ hbp, div_mul_cancel₀ _ hbq]
    rw [div_eq_div_iff (by linarith) (by linarith)]
    ring
  · simp only [mergeAgg_min]; rw [min_right_comm]
  · simp only [mergeAgg_max]
    rw [max_assoc, max_comm p.max_value, ← max_assoc]
  · simp only [mergeAgg_low]; omega

/-- Merging the partials of two non-empty groups equals the partial of
their union on the core fields. -/
theorem mergeAgg_union0 (g1 g2 : List IdRow) (h1 : g1 ≠ []) (h2 : g2 ≠ []) :
    coreEq (some (mergeAgg (aggOfGroup g1) (aggOfGroup g2)))
      (some (aggOfGroup (g1 ++ g2))) := by
  have hn1 : ((g1.length : ℚ)) ≠ 0 := (length_cast_pos g1 h1).ne'
  have hn2 : ((g2.length : ℚ)) ≠ 0 := (length_cast_pos g2 h2).ne'
  obtain ⟨m1, hm1⟩ := oMin_of_ne_nil (valsOf g1) (valsOf_ne_nil g1 h1)
  obtain ⟨m2, hm2⟩ := oMin_of_ne_nil (valsOf g2) (valsOf_ne_nil g2 h2)
  obtain ⟨x1, hx1⟩ := oMax_of_ne_nil (valsOf g1) (valsOf_ne_nil g1 h1)
  obtain ⟨x2, hx2⟩ := oMax_of_ne_nil (valsOf g2) (valsOf_ne_nil g2 h2)
  refine ⟨?_, ?_, ?_, ?_, ?_⟩
  · simp [mergeAgg_count, aggOfGroup_count]
  · rw [mergeAgg_avg, aggOfGroup_avg, aggOfGroup_avg, aggOfGroup_avg,
      aggOfGroup_count, aggOfGroup_count, valsOf_append, List.sum_append,
      List.length_append, div_mul_cancel₀ _ hn1, div_mul_cancel₀ _ hn2]
    push_cast
    rfl
  · rw [mergeAgg_min, aggOfGroup_min, aggOfGroup_min, aggOfGroup_min,
      valsOf_append, oMin_append, hm1, hm2]
    rfl
  · rw [mergeAgg_max, aggOfGroup_max, aggOfGroup_max, aggOfGroup_max,
      valsOf_append, oMax_append, hx1, hx2]
    rfl
  · simp [mergeAgg_low, aggOfGroup_low, List.filter_append]

/-- Sequentially merging two non-empty groups into a bucket equals
merging their union at once, on the core fields. -/
theorem mergeAgg_union (b : Agg) (g1 g2 : List IdRow) (h1 : g1 ≠ [])
    (h2 : g2 ≠ []) :
    coreEq (some (mergeAgg (mergeAgg b (aggOfGroup g1)) (aggOfGroup g2)))
      (some (mergeAgg b (aggOfGroup (g1 ++ g2)))) := by
  have hb0 : (0 : ℚ) ≤ (b.measurement_count : ℚ) := Nat.cast_nonneg _
  have hn1 : (0 : ℚ) < (g1.length : ℚ) := length_cast_pos g1 h1
  have hn2 : (0 : ℚ) < (g2.length : ℚ) := length_cast_pos g2 h2
  obtain ⟨m1, hm1⟩ := oMin_of_ne_nil (valsOf g1) (valsOf_ne_nil g1 h1)
  obtain ⟨m2, hm2⟩ := oMin_of_ne_nil (valsOf g2) (valsOf_ne_nil g2 h2)
  obtain ⟨x1, hx1⟩ := oMax_of_ne_nil (valsOf g1) (valsOf_ne_nil g1 h1)
  obtain ⟨x2, hx2⟩ := oMax_of_ne_nil (valsOf g2) (valsOf_ne_nil g2 h2)
  refine ⟨?_, ?_, ?_, ?_, ?_⟩
  · simp only [mergeAgg_count, aggOfGroup_count, List.length_append]; omega
  · simp only [mergeAgg_avg, mergeAgg_count, aggOfGroup_avg, aggOfGroup_count,
      valsOf_append, List.sum_append, List.length_append]
    have e1 : ((g1.length : ℚ)) ≠ 0 := hn1.ne'
    have e2 : ((g2.length : ℚ)) ≠ 0 := hn2.ne'
    have e3 : ((b.measurement_count : ℚ) + g1.length) ≠ 0 := by linarith
    have e4 : ((g1.length : ℚ) + g2.length) ≠ 0 := by linarith
    have e5 : ((b.measurement_count : ℚ) + g1.length + g2.length) ≠ 0 := by
      linarith
    push_cast
    field_simp
    ring
  · simp only [mergeAgg_min, aggOfGroup_min, valsOf_append, oMin_append,
      hm1, hm2, oMin2, Option.getD_some]
    rw [min_assoc]
  · simp only [mergeAgg_max, aggOfGroup_max, valsOf_append, oMax_append,
      hx1, hx2, oMax2, Option.getD_some]
    rw [max_assoc]
  · simp only [mergeAgg_low, aggOfGroup_low, List.filter_append,
      List.length_append]
    omega

/-- C3: merging the partial statistics of two batches into any rollup
store in either order, or merging the combined batch at once, produces
the same bucket values on count, average, min, max, and low-quality
count, for every bucket. -/
theorem merge_comm_assoc (s : Store) (rows1 rows2 : List IdRow) (k : BKey) :
    coreEq (mergeRows rows2 (mergeRows rows1 s) k)
        (mergeRows rows1 (mergeRows rows2 s) k) ∧
      coreEq (mergeRows rows2 (mergeRows rows1 s) k)
        (mergeRows (rows1 ++ rows2) s k) := by
  simp only [mergeRows]
  cases hg1 : groupRows rows1 k with
  | nil =>
    have hb1 : batchAgg rows1 k = none := (batchAgg_none_iff rows1 k).mpr hg1
    have hb12 : batchAgg (rows1 ++ rows2) k = batchAgg rows2 k := by
      unfold batchAgg
      rw [groupRows_append, hg1, List.nil_append]
    rw [hb1, hb12, mergePoint_none, mergePoint_none]
    exact ⟨coreEq_refl _, coreEq_refl _⟩
  | cons a1 t1 =>
    have hne1 : groupRows rows1 k ≠ [] := by rw [hg1]; simp
    have hp1 : 1 ≤ (aggOfGroup (groupRows rows1 k)).measurement_count := by
      rw [aggOfGroup_count, hg1]
      simp [List.length_cons]
    have hb1 : batchAgg rows1 k = some (aggOfGroup (groupRows rows1 k)) :=
      batchAgg_of_ne _ _ hne1
    cases hg2 : groupRows rows2 k with
    | nil =>
      have hb2 : batchAgg rows2 k = none := (batchAgg_none_iff rows2 k).mpr hg2
      have hb12 : batchAgg (rows1 ++ rows2) k = batchAgg rows1 k := by
        unfold batchAgg
        rw [groupRows_append, hg2, List.append_nil]
      rw [hb2, hb12, mergePoint_none, mergePoint_none]
      exact ⟨coreEq_refl _, coreEq_refl _⟩
    | cons a2 t2 =>
      have hne2 : groupRows rows2 k ≠ [] := by rw [hg2]; simp
      have hp2 : 1 ≤ (aggOfGroup (groupRows rows2 k)).measurement_count := by
        rw [aggOfGroup_count, hg2]
        simp [List.length_cons]
      have hb2 : batchAgg rows2 k = some (aggOfGroup (groupRows rows2 k)) :=
        batchAgg_of_ne _ _ hne2
      have hne12 : groupRows (rows1 ++ rows2) k ≠ [] := by
        rw [groupRows_append, hg1]
        simp
      have hb12 : batchAgg (rows1 ++ rows2) k =
          some (aggOfGroup (groupRows rows1 k ++ groupRows rows2 k)) := by
        rw [batchAgg_of_ne _ _ hne12, groupRows_append]
      rw [hb1, hb2, hb12]
      cases ho : s k with
      | none =>
        simp only [mergePoint]
        exact ⟨mergeAgg_comm _ _, mergeAgg_union0 _ _ hne1 hne2⟩
      | some b =>
        simp only [mergePoint]
        exact ⟨mergeAgg_comm3 b _ _ hp1 hp2, mergeAgg_union b _ _ hne1 hne2⟩

/-- The empty store summarizes the empty history. -/
theorem represents_nil : Represents emptyStore [] := fun _ => rfl

/-- One merge extends a faithful summary by the merged rows. -/
theorem represents_step (s : Store) (hist : List IdRow)
    (hs : Represents s hist) (rows : List IdRow) :
    Represents (mergeRows rows s) (hist ++ rows) := by
  intro k
  have hk := hs k
  simp only [mergeRows]
  cases hg : groupRows rows k with
  | nil =>
    have hb : batchAgg rows k = none := (batchAgg_none_iff rows k).mpr hg
    rw [hb, mergePoint_none, groupRows_append, hg, List.append_nil]
    exact hk
  | cons a t =>
    have hne : groupRows rows k ≠ [] := by rw [hg]; simp
    have hb : batchAgg rows k = some (aggOfGroup (groupRows rows k)) :=
      batchAgg_of_ne _ _ hne
    rw [hb, groupRows_append]
    cases ho : s k with
    | none =>
      rw [ho] at hk
      simp only [mergePoint]
      rw [hk, List.nil_append]
      refine ⟨hne, rfl, ?_⟩
      rw [aggOfGroup_avg, div_mul_cancel₀ _ (length_cast_pos _ hne).ne']
    | some b =>
      rw [ho] at hk
      obtain ⟨hh, hc, ha⟩ := hk
      simp only [mergePoint]
      have hn2 : (0 : ℚ) < ((groupRows rows k).length : ℚ) :=
        length_cast_pos _ hne
      have hn1 : (0 : ℚ) ≤ ((groupRows hist k).length : ℚ) := Nat.cast_nonneg _
      refine ⟨?_, ?_, ?_⟩
      · intro heq
        exact hh (List.append_eq_nil.mp heq).1
      · rw [mergeAgg_count, aggOfGroup_count, hc, List.length_append]
      · rw [mergeAgg_avg, aggOfGroup_avg, aggOfGroup_count, valsOf_append,
          List.sum_append, List.length_append, hc,
          div_mul_cancel₀ _ hn2.ne']
        push_cast
        rw [div_mul_cancel₀ _ (by linarith :
          ((groupRows hist k).length : ℚ) + (groupRows rows k).length ≠ 0)]
        rw [← ha]

/-- A sequence of merges extends a faithful summary by all merged rows. -/
theorem represents_fold (batches : List (List IdRow)) :
    ∀ (s : Store) (hist : List IdRow), Represents s hist →
      Represents (mergeSeq batches s) (hist ++ batches.flatten) := by
  induction batches with
  | nil =>
    intro s hist hs
    simpa [mergeSeq] using hs
  | cons rows bs ih =>
    intro s hist hs
    have h2 := ih (mergeRows rows s) (hist ++ rows)
      (represents_step s hist hs rows)
    simp only [mergeSeq, List.foldl_cons] at h2 ⊢
    rw [List.flatten_cons, ← List.append_assoc]
    exact h2

/-- C4: after any sequence of merges starting from the empty store, every
bucket's `measurement_count` is the exact number of rows ever merged into
it and `avg_value` is their exact arithmetic mean. -/
theorem bucket_stats_exact (batches : List (List IdRow)) (k : BKey) (b : Agg)
    (h : mergeSeq batches emptyStore k = some b) :
    b.measurement_count = (groupRows batches.flatten k).length ∧
      b.avg_value = (valsOf (groupRows batches.flatten k)).sum /
        ((groupRows batches.flatten k).length : ℚ) := by
  have hr := represents_fold batches emptyStore [] represents_nil
  rw [List.nil_append] at hr
  have hk := hr k
  rw [h] at hk
  obtain ⟨hne, hc, ha⟩ := hk
  refine ⟨hc, ?_⟩
  rw [eq_div_iff (length_cast_pos _ hne).ne']
  exact ha

/-- C4 witness at a single one-row batch. -/
theorem bucket_stats_exact_witness :
    (aggOfGroup [wRow]).measurement_count =
        (groupRows ([[wRow]] : List (List IdRow)).flatten (bkey wRow)).length ∧
      (aggOfGroup [wRow]).avg_value =
        (valsOf (groupRows ([[wRow]] : List (List IdRow)).flatten
            (bkey wRow))).sum /
          ((groupRows ([[wRow]] : List (List IdRow)).flatten
            (bkey wRow)).length : ℚ) :=
  bucket_stats_exact [[wRow]] (bkey wRow) (aggOfGroup [wRow]) (by decide)

end Etl

